import Mathlib

/-!
Verification of `server/scripts/curate_words.py` (Wordleplus word-curation
pipeline): a shallow embedding of the loader, scorer, partitioner and writer,
with theorems settling the specification claims.

Frequency scores (Python floats) are modelled as rationals; the external
frequency oracle `zipf_frequency` is a parameter `oracle : String → ℚ`
applied to the lower-cased word. The filesystem is modelled as a partial map
from path strings to file contents, and `main` as a function from that map
and the parsed arguments to either a fatal error (Python `SystemExit`) or
the set of files it writes.
-/

namespace Curate

/-! ### Python string primitives used by the script -/

/-- Python `str.isspace` on a single character (the Unicode whitespace set). -/
def pyIsSpace (c : Char) : Bool :=
  c = ' ' || c = '\t' || c = '\n' || c = '\r' || c = '\x0b' || c = '\x0c' ||
  (0x1c ≤ c.val && c.val ≤ 0x1f) || c.val = 0x85 || c.val = 0xa0 ||
  c.val = 0x1680 || (0x2000 ≤ c.val && c.val ≤ 0x200a) ||
  c.val = 0x2028 || c.val = 0x2029 || c.val = 0x202f || c.val = 0x205f ||
  c.val = 0x3000

/-- Python line-break characters recognised by `str.splitlines`. -/
def pyIsLineBreak (c : Char) : Bool :=
  c = '\n' || c = '\r' || c = '\x0b' || c = '\x0c' ||
  c.val = 0x1c || c.val = 0x1d || c.val = 0x1e || c.val = 0x85 ||
  c.val = 0x2028 || c.val = 0x2029

/-- Worker for `pySplitlines`: `cur` is the current (reversed) line. -/
def splitlinesAux : List Char → List Char → List (List Char)
  | [], cur => if cur.isEmpty then [] else [cur.reverse]
  | '\r' :: '\n' :: rest, cur => cur.reverse :: splitlinesAux rest []
  | c :: rest, cur =>
      if pyIsLineBreak c then cur.reverse :: splitlinesAux rest []
      else splitlinesAux rest (c :: cur)

/-- Python `str.splitlines`: split at line boundaries (`\r\n` counts as one
boundary), without keeping the terminators; no empty final line. -/
def pySplitlines (s : String) : List String :=
  (splitlinesAux s.data []).map List.asString

/-- Python `str.strip`: remove leading and trailing whitespace. -/
def pyStrip (s : String) : String :=
  (((s.data.dropWhile pyIsSpace).reverse.dropWhile pyIsSpace).reverse).asString

/-- Python `str.upper` (per-character mapping, as for ASCII words). -/
def pyUpper (s : String) : String := (s.data.map Char.toUpper).asString

/-- Python `str.lower` (per-character mapping, as for ASCII words). -/
def pyLower (s : String) : String := (s.data.map Char.toLower).asString

/-- Codepoint-ordinal lexicographic comparison of character lists, as Python
compares strings: `lexLeb as bs = true` iff `as` is at most `bs`. -/
def lexLeb : List Char → List Char → Bool
  | [], _ => true
  | _ :: _, [] => false
  | a :: as, b :: bs =>
      if a < b then true else if b < a then false else lexLeb as bs

/-- Python's `<=` on strings: codepoint-ordinal lexicographic order. -/
def pyStrLe (a b : String) : Bool := lexLeb a.data b.data

/-- Decimal digits of `n` (most significant first); `fuel` bounds recursion. -/
def natReprAux : ℕ → ℕ → List Char
  | 0, _ => []
  | fuel + 1, n =>
      if n < 10 then [Nat.digitChar n]
      else natReprAux fuel (n / 10) ++ [Nat.digitChar (n % 10)]

/-- Python's `str` of a non-negative integer: its decimal digits. -/
def natRepr (n : ℕ) : String := (natReprAux (n + 1) n).asString

/-! ### The data model and the pipeline stages -/

/-- The immutable `WordScore` dataclass of the script. -/
structure WordScore where
  word : String
  freq : ℚ
  deriving DecidableEq, Repr

/-- Embeds `load_words` (lines 21-22 of the script):
`[w.strip().upper() for w in path.read_text().splitlines() if w.strip()]`. -/
def load_words (text : String) : List String :=
  ((pySplitlines text).filter (fun w => !(pyStrip w).data.isEmpty)).map
    (fun w => pyUpper (pyStrip w))

/-- Embeds `save_words` (lines 25-26): the content written is
`"\n".join(words) + "\n"`. -/
def save_words_content (words : List String) : String :=
  String.intercalate "\n" words ++ "\n"

/-- Rounding used by Python's fixed-point float formatting: round to the
nearest integer, ties to even. -/
def roundHalfEven (q : ℚ) : ℤ :=
  let f := ⌊q⌋
  if q - f < 1 / 2 then f
  else if (1 : ℚ) / 2 < q - f then f + 1
  else if 2 ∣ f then f else f + 1

/-- Three zero-padded decimal digits of `r % 1000`. -/
def frac3 (r : ℕ) : String :=
  String.mk [Nat.digitChar (r / 100 % 10), Nat.digitChar (r / 10 % 10),
    Nat.digitChar (r % 10)]

/-- Embeds the Python format `f"{freq:.3f}"`: the score rendered with exactly
three digits after the decimal point. -/
def fmt3 (q : ℚ) : String :=
  let n := roundHalfEven (q * 1000)
  (if n < 0 then "-" else "") ++ natRepr (n.natAbs / 1000) ++ "." ++
    frac3 (n.natAbs % 1000)

/-- CSV quoting of one field as done by Python's `csv.writer` with the default
dialect: a field containing a delimiter, quote or line break is wrapped in
double quotes with inner quotes doubled. -/
def csvField (s : String) : String :=
  if s.data.any (fun c => c = ',' || c = '"' || c = '\r' || c = '\n') then
    "\"" ++ (s.data.foldr
      (fun c acc => if c = '"' then '"' :: '"' :: acc else c :: acc) []).asString
      ++ "\""
  else s

/-- One CSV row (`csv.writer.writerow`): fields joined by commas. -/
def csvRow (cells : List String) : String :=
  String.intercalate "," (cells.map csvField)

/-- Embeds `export_rejects` (lines 29-34): the reject CSV is a header row
followed by a `word,freq` row per entry, each terminated by `\r\n` (the csv
module's default line terminator). -/
def export_rejects_content (rejects : List WordScore) : String :=
  String.join ((csvRow ["word", "zipf_frequency"] ::
    rejects.map (fun item => csvRow [item.word, fmt3 item.freq])).map
    (fun row => row ++ "\r\n"))

/-- Embeds `score_words` (lines 43-48): one `WordScore` per word occurrence,
in order, scoring `zipf_frequency(word.lower(), "en")`. -/
def score_words (oracle : String → ℚ) (words : List String) : List WordScore :=
  words.map (fun word => ⟨word, oracle (pyLower word)⟩)

/-- The loop of `score_words` instrumented with an oracle-invocation counter:
returns the scored list together with how many times the oracle was called. -/
def score_words_instr (oracle : String → ℚ) (words : List String) :
    List WordScore × ℕ :=
  words.foldl
    (fun acc word => (acc.1 ++ [⟨word, oracle (pyLower word)⟩], acc.2 + 1))
    ([], 0)

/-- Embeds line 99: `kept = [item for item in scored if item.freq >= threshold]`. -/
def keptOf (scored : List WordScore) (threshold : ℚ) : List WordScore :=
  scored.filter (fun item => decide (threshold ≤ item.freq))

/-- Embeds line 100: `dropped = [item for item in scored if item.freq < threshold]`. -/
def droppedOf (scored : List WordScore) (threshold : ℚ) : List WordScore :=
  scored.filter (fun item => decide (item.freq < threshold))

/-- Embeds lines 106-108: the effective guesses threshold, `float("-inf")`
when the option is unset. -/
def guessesThresholdOf : Option ℚ → WithBot ℚ
  | none => ⊥
  | some t => (t : ℚ)

/-- Embeds lines 110-112 without the final sort: the entries of the full
scored list with `item.freq >= guesses_threshold`. -/
def allowedOf (scored : List WordScore) (guesses_threshold : Option ℚ) :
    List WordScore :=
  scored.filter
    (fun item =>
      decide (guessesThresholdOf guesses_threshold ≤ (item.freq : WithBot ℚ)))

/-- Python's `sorted` on the words of a scored list: stable sort in the
codepoint-ordinal lexicographic string order. -/
def sortedWords (entries : List WordScore) : List String :=
  List.insertionSort (fun a b => pyStrLe a b = true)
    (entries.map WordScore.word)

/-- Python's `sorted(dropped, key=lambda x: x.freq)` (line 116): stable sort
of the entries by frequency. -/
def sortedByFreq (entries : List WordScore) : List WordScore :=
  List.insertionSort (fun a b => a.freq ≤ b.freq) entries

/-- Embeds lines 115-116: the reject artifact, written only when `dropped`
is non-empty, with the dropped entries sorted ascending by frequency. -/
def rejectsOutput (rejectsPath : String) (dropped : List WordScore) :
    Option (String × String) :=
  if dropped.isEmpty then none
  else some (rejectsPath, export_rejects_content (sortedByFreq dropped))

/-- The parsed command-line arguments of `main` (defaults applied by
argparse; `output = none` means "overwrite the source"). -/
structure Args where
  source : String
  output : Option String
  rejects : String
  guesses_output : Option String
  threshold : ℚ
  guesses_threshold : Option ℚ

/-- Everything a successful run writes, plus the intermediate lists the
summary lines print. Each file is a `(path, content)` pair. -/
structure RunResult where
  answer : String × String
  guesses : Option (String × String)
  rejectsFile : Option (String × String)
  scored : List WordScore
  kept : List WordScore
  dropped : List WordScore
  deriving Repr

/-- Embeds `main` (lines 91-116) over an abstract filesystem
`fs : path → Option content`. `Except.error` is the `SystemExit` raised when
the source file is missing: the run aborts before scoring and writes nothing. -/
def runMain (oracle : String → ℚ) (fs : String → Option String) (args : Args) :
    Except String RunResult :=
  match fs args.source with
  | none => .error ("Source file not found: " ++ args.source)
  | some text =>
    let scored := score_words oracle (load_words text)
    let kept := keptOf scored args.threshold
    let dropped := droppedOf scored args.threshold
    let output_path := args.output.getD args.source
    .ok
      { answer := (output_path, save_words_content (sortedWords kept))
        guesses := args.guesses_output.map
          (fun gp => (gp,
            save_words_content
              (sortedWords (allowedOf scored args.guesses_threshold))))
        rejectsFile := rejectsOutput args.rejects dropped
        scored := scored
        kept := kept
        dropped := dropped }

/-- Scenario A oracle: APPLE scores 5.32, BERRY 4.10, ZYZZX 0.00 (the oracle
receives the lower-cased word). -/
def oracleA : String → ℚ := fun w =>
  if w = "apple" then 133 / 25 else if w = "berry" then 41 / 10 else 0

/-- Scenario A filesystem: the source file holds the three words. -/
def fsA : String → Option String := fun p =>
  if p = "words.txt" then some "APPLE\nBERRY\nZYZZX\n" else none

/-- Scenario A arguments: answer threshold 3.4, guesses threshold unset. -/
def argsA : Args :=
  ⟨"words.txt", some "answers.txt", "rejects.csv", some "guesses.txt",
    17 / 5, none⟩

/-! ### Order bridges: the codepoint comparison versus Mathlib's string order -/

theorem lexLeb_iff_not_lex (as : List Char) :
    ∀ bs, lexLeb as bs = true ↔ ¬ List.Lex (· < ·) bs as := by
  induction as with
  | nil =>
      intro bs
      exact iff_of_true rfl (List.Lex.not_nil_right _ _)
  | cons a as ih =>
      intro bs
      cases bs with
      | nil =>
          refine iff_of_false (by simp [lexLeb]) (not_not_intro List.Lex.nil)
      | cons b bs =>
          show (if a < b then true
            else if b < a then false else lexLeb as bs) = true ↔ _
          rcases lt_trichotomy a b with h | h | h
          · rw [if_pos h]
            refine iff_of_true rfl (fun hlex => ?_)
            cases hlex with
            | cons _ => exact lt_irrefl a h
            | rel hr => exact lt_asymm h hr
          · subst h
            rw [if_neg (lt_irrefl a), if_neg (lt_irrefl a), ih bs]
            constructor
            · intro h hlex
              cases hlex with
              | cons hl => exact h hl
              | rel hr => exact lt_irrefl a hr
            · exact fun h hl => h (List.Lex.cons hl)
          · rw [if_neg (lt_asymm h), if_pos h]
            exact iff_of_false (by simp) (not_not_intro (List.Lex.rel h))

theorem pyStrLe_iff_le (a b : String) : pyStrLe a b = true ↔ a ≤ b := by
  rw [pyStrLe, lexLeb_iff_not_lex, String.le_iff_toList_le, ← not_lt]
  exact Iff.rfl

instance : DecidableRel (fun a b : String => pyStrLe a b = true) :=
  fun a b => inferInstanceAs (Decidable (pyStrLe a b = true))

instance : IsTotal String (fun a b => pyStrLe a b = true) :=
  ⟨fun a b => by
    rw [pyStrLe_iff_le, pyStrLe_iff_le]
    exact le_total a b⟩

instance : IsTrans String (fun a b => pyStrLe a b = true) :=
  ⟨fun a b c hab hbc => by
    rw [pyStrLe_iff_le] at hab hbc ⊢
    exact le_trans hab hbc⟩

instance : DecidableRel (fun a b : WordScore => a.freq ≤ b.freq) :=
  fun a b => inferInstanceAs (Decidable (a.freq ≤ b.freq))

instance : IsTotal WordScore (fun a b => a.freq ≤ b.freq) :=
  ⟨fun a b => le_total a.freq b.freq⟩

instance : IsTrans WordScore (fun a b => a.freq ≤ b.freq) :=
  ⟨fun _ _ _ hab hbc => le_trans hab hbc⟩

/-! ### Helper lemmas -/

theorem mem_keptOf {scored : List WordScore} {t : ℚ} {e : WordScore} :
    e ∈ keptOf scored t ↔ e ∈ scored ∧ t ≤ e.freq := by
  simp [keptOf, List.mem_filter]

theorem mem_droppedOf {scored : List WordScore} {t : ℚ} {e : WordScore} :
    e ∈ droppedOf scored t ↔ e ∈ scored ∧ e.freq < t := by
  simp [droppedOf, List.mem_filter]

theorem kept_dropped_length (scored : List WordScore) (t : ℚ) :
    (keptOf scored t).length + (droppedOf scored t).length = scored.length := by
  induction scored with
  | nil => rfl
  | cons e l ih =>
      simp only [keptOf, droppedOf, List.filter_cons] at ih ⊢
      by_cases h : t ≤ e.freq
      · rw [if_pos (by simpa using h), if_neg (by simpa using not_lt.mpr h)]
        simp only [List.length_cons]
        omega
      · rw [if_neg (by simpa using h), if_pos (by simpa using not_le.mp h)]
        simp only [List.length_cons]
        omega

theorem freq_of_mem_score_words {oracle : String → ℚ} {ws : List String}
    {e : WordScore} (h : e ∈ score_words oracle ws) :
    e.freq = oracle (pyLower e.word) := by
  simp only [score_words, List.mem_map] at h
  obtain ⟨w, -, rfl⟩ := h
  rfl

theorem allowedOf_none (scored : List WordScore) :
    allowedOf scored none = scored := by
  simp [allowedOf, guessesThresholdOf, List.filter_eq_self]

theorem mem_allowedOf_some {scored : List WordScore} {t : ℚ} {e : WordScore} :
    e ∈ allowedOf scored (some t) ↔ e ∈ scored ∧ t ≤ e.freq := by
  simp [allowedOf, guessesThresholdOf, List.mem_filter, WithBot.coe_le_coe]

/-! ### Claim theorems -/

/-- C1: for every Scored Set (produced by the scorer) and every answer
threshold, `kept` holds exactly the entries with `freq >= answer_threshold`
and `dropped` exactly those with `freq < answer_threshold`; a boundary entry
(`freq = threshold`) is kept and not dropped; the lengths of `kept` and
`dropped` sum to the Scored Set's length, and the word-sets of `kept` and
`dropped` are disjoint. -/
theorem kept_dropped_partition (oracle : String → ℚ) (ws : List String) (t : ℚ) :
    (∀ e ∈ keptOf (score_words oracle ws) t, t ≤ e.freq) ∧
    (∀ e ∈ droppedOf (score_words oracle ws) t, e.freq < t) ∧
    (∀ e ∈ score_words oracle ws,
      (e ∈ keptOf (score_words oracle ws) t ↔ t ≤ e.freq) ∧
      (e ∈ droppedOf (score_words oracle ws) t ↔ e.freq < t)) ∧
    (∀ e ∈ score_words oracle ws, e.freq = t →
      e ∈ keptOf (score_words oracle ws) t ∧
      e ∉ droppedOf (score_words oracle ws) t) ∧
    (keptOf (score_words oracle ws) t).length
      + (droppedOf (score_words oracle ws) t).length
      = (score_words oracle ws).length ∧
    (∀ w, w ∈ (keptOf (score_words oracle ws) t).map WordScore.word →
      w ∉ (droppedOf (score_words oracle ws) t).map WordScore.word) := by
  refine ⟨fun e he => (mem_keptOf.mp he).2,
    fun e he => (mem_droppedOf.mp he).2,
    fun e he => ⟨⟨fun h => (mem_keptOf.mp h).2, fun h => mem_keptOf.mpr ⟨he, h⟩⟩,
      ⟨fun h => (mem_droppedOf.mp h).2, fun h => mem_droppedOf.mpr ⟨he, h⟩⟩⟩,
    fun e he hft => ⟨mem_keptOf.mpr ⟨he, le_of_eq hft.symm⟩,
      fun h => absurd (mem_droppedOf.mp h).2 (by rw [hft]; exact lt_irrefl t)⟩,
    kept_dropped_length _ t,
    fun w hk hd => ?_⟩
  simp only [List.mem_map] at hk hd
  obtain ⟨e1, he1, rfl⟩ := hk
  obtain ⟨e2, he2, hw⟩ := hd
  have h1 := (mem_keptOf.mp he1).2
  have h2 := (mem_droppedOf.mp he2).2
  rw [freq_of_mem_score_words (mem_keptOf.mp he1).1] at h1
  rw [freq_of_mem_score_words (mem_droppedOf.mp he2).1, hw] at h2
  exact absurd h1 (not_le.mpr h2)

/-- Witness for C1 at a concrete input: with one word scoring `133/25` and
threshold `17/5`, the boundary facts and the length partition hold. -/
theorem kept_dropped_partition_witness :
    (17 / 5 : ℚ) ≤ (WordScore.mk "APPLE" (133 / 25)).freq ∧
    (keptOf (score_words (fun w => if w = "apple" then 133 / 25 else 0)
        ["APPLE", "ZYZZX"]) (17 / 5)).length
      + (droppedOf (score_words (fun w => if w = "apple" then 133 / 25 else 0)
        ["APPLE", "ZYZZX"]) (17 / 5)).length
      = (score_words (fun w => if w = "apple" then 133 / 25 else 0)
        ["APPLE", "ZYZZX"]).length := by
  have hmem : WordScore.mk "APPLE" (133 / 25) ∈
      keptOf (score_words (fun w => if w = "apple" then 133 / 25 else 0)
        ["APPLE", "ZYZZX"]) (17 / 5) := by
    have h1 : pyLower "APPLE" = "apple" := by decide
    refine mem_keptOf.mpr ⟨?_, by norm_num⟩
    simp [score_words, h1]
  exact ⟨(kept_dropped_partition (fun w => if w = "apple" then 133 / 25 else 0)
      ["APPLE", "ZYZZX"] (17 / 5)).1 _ hmem,
    (kept_dropped_partition (fun w => if w = "apple" then 133 / 25 else 0)
      ["APPLE", "ZYZZX"] (17 / 5)).2.2.2.2.1⟩

/-- C2: with the guesses threshold unset, `allowed` is the full Scored Set
(the `-inf` default filter is a no-op); with it set to `t`, `allowed` is
exactly the entries of the full Scored Set with `freq >= t`; and `allowed`
can contain an entry that `kept` excludes (it filters the Scored Set, not
`kept`). -/
theorem allowed_filters_scored :
    (∀ scored : List WordScore, allowedOf scored none = scored) ∧
    (∀ (scored : List WordScore) (t : ℚ) (e : WordScore),
      e ∈ allowedOf scored (some t) ↔ e ∈ scored ∧ t ≤ e.freq) ∧
    (allowedOf [WordScore.mk "ZYZZX" 0] none = [WordScore.mk "ZYZZX" 0] ∧
      keptOf [WordScore.mk "ZYZZX" 0] (17 / 5) = []) := by
  exact ⟨allowedOf_none, fun scored t e => mem_allowedOf_some,
    allowedOf_none _, by norm_num [keptOf, List.filter]⟩

/-- Witness for C2 at a concrete input: the boundary entry of the iff
characterisation, instantiated with a one-entry scored list. -/
theorem allowed_filters_scored_witness :
    WordScore.mk "BERRY" (41 / 10) ∈
      allowedOf [WordScore.mk "BERRY" (41 / 10)] (some 4) := by
  exact (allowed_filters_scored.2.1 [WordScore.mk "BERRY" (41 / 10)] 4
    (WordScore.mk "BERRY" (41 / 10))).mpr ⟨List.mem_singleton_self _, by norm_num⟩

theorem stringJoin_cons (s : String) (l : List String) :
    String.join (s :: l) = s ++ String.join l := by
  simp [String.join_eq]
  rfl

theorem digitChar_isDigit {m : ℕ} (h : m < 10) :
    (Nat.digitChar m).isDigit = true := by
  interval_cases m <;> decide

theorem fmt3_shape (q : ℚ) :
    ∃ ip fp : String, fmt3 q = ip ++ "." ++ fp ∧ fp.length = 3 ∧
      fp.data.all Char.isDigit = true := by
  refine ⟨(if roundHalfEven (q * 1000) < 0 then "-" else "")
      ++ natRepr ((roundHalfEven (q * 1000)).natAbs / 1000),
    frac3 ((roundHalfEven (q * 1000)).natAbs % 1000), rfl, rfl, ?_⟩
  simp only [frac3, String.mk, List.all_cons, List.all_nil, Bool.and_true]
  rw [digitChar_isDigit (Nat.mod_lt _ (by norm_num)),
    digitChar_isDigit (Nat.mod_lt _ (by norm_num)),
    digitChar_isDigit (Nat.mod_lt _ (by norm_num))]
  rfl

/-- C3: the reject artifact is produced iff `dropped` is non-empty; when
produced, its content is the header row `word,zipf_frequency` followed by one
`word,freq` row per dropped entry, the entries ordered ascending by frequency
score, with each frequency rendered with exactly three digits after the
decimal point. -/
theorem reject_artifact_spec (path : String) (dropped : List WordScore) :
    (rejectsOutput path dropped = none ↔ dropped = []) ∧
    (dropped ≠ [] → ∃ ds : List WordScore, List.Perm ds dropped ∧
      List.Sorted (fun a b : WordScore => a.freq ≤ b.freq) ds ∧
      rejectsOutput path dropped = some (path, "word,zipf_frequency\r\n" ++
        String.join (ds.map (fun i => csvRow [i.word, fmt3 i.freq] ++ "\r\n")))) ∧
    (∀ q : ℚ, ∃ ip fp : String, fmt3 q = ip ++ "." ++ fp ∧ fp.length = 3 ∧
      fp.data.all Char.isDigit = true) := by
  refine ⟨?_, ?_, fmt3_shape⟩
  · rw [rejectsOutput]
    by_cases h : dropped.isEmpty <;> simp_all [List.isEmpty_iff]
  · intro hne
    refine ⟨sortedByFreq dropped, List.perm_insertionSort _ _,
      List.sorted_insertionSort _ _, ?_⟩
    rw [rejectsOutput, if_neg (by simpa [List.isEmpty_iff] using hne)]
    have hh : csvRow ["word", "zipf_frequency"] ++ "\r\n"
        = "word,zipf_frequency\r\n" := by decide
    simp only [export_rejects_content, List.map_cons, stringJoin_cons, hh,
      List.map_map]
    rfl

/-- Witness for C3: at the one-entry dropped list `[ZY, 0]` the reject
artifact exists, with sorted content. -/
theorem reject_artifact_spec_witness :
    ∃ ds : List WordScore, List.Perm ds [WordScore.mk "ZY" 0] ∧
      List.Sorted (fun a b : WordScore => a.freq ≤ b.freq) ds ∧
      rejectsOutput "r.csv" [WordScore.mk "ZY" 0] = some ("r.csv",
        "word,zipf_frequency\r\n" ++ String.join ([WordScore.mk "ZY" 0].map
          (fun i => csvRow [i.word, fmt3 i.freq] ++ "\r\n"))) := by
  have h := (reject_artifact_spec "r.csv" [WordScore.mk "ZY" 0]).2.1
    (List.cons_ne_nil _ _)
  obtain ⟨ds, hperm, hsort, heq⟩ := h
  obtain rfl : ds = [WordScore.mk "ZY" 0] := List.perm_singleton.mp hperm
  exact ⟨_, hperm, hsort, heq⟩

/-- C4: for a non-empty entry list, the rendered word-list file content is
the entries' words sorted ascending in the codepoint lexicographic order
(duplicates preserved, as a permutation), one per line, with a trailing
newline; the same renderer serves the answer list (`kept`) and the
allowed-guesses list (`allowed`). -/
theorem word_list_rendering (entries : List WordScore) (_h : entries ≠ []) :
    ∃ ws : List String, List.Perm ws (entries.map WordScore.word) ∧
      List.Sorted (· ≤ ·) ws ∧
      save_words_content (sortedWords entries)
        = String.intercalate "\n" ws ++ "\n" := by
  refine ⟨sortedWords entries, List.perm_insertionSort _ _, ?_, rfl⟩
  exact List.Pairwise.imp (fun hab => (pyStrLe_iff_le _ _).mp hab)
    (List.sorted_insertionSort _ (entries.map WordScore.word))

/-- Witness for C4 at a concrete two-entry list. -/
theorem word_list_rendering_witness :
    ∃ ws : List String,
      List.Perm ws ([WordScore.mk "BE" 1, WordScore.mk "AP" 2].map WordScore.word) ∧
      List.Sorted (· ≤ ·) ws ∧
      save_words_content (sortedWords [WordScore.mk "BE" 1, WordScore.mk "AP" 2])
        = String.intercalate "\n" ws ++ "\n" :=
  word_list_rendering [WordScore.mk "BE" 1, WordScore.mk "AP" 2]
    (List.cons_ne_nil _ _)

theorem pyStrip_data_eq_nil_iff (w : String) :
    (pyStrip w).data = [] ↔ w.data.all pyIsSpace = true := by
  rw [show (pyStrip w).data
      = ((w.data.dropWhile pyIsSpace).reverse.dropWhile pyIsSpace).reverse
      from rfl]
  rw [List.reverse_eq_nil_iff, List.dropWhile_eq_nil_iff, List.all_eq_true]
  constructor
  · intro hdrop x hx
    rw [← List.takeWhile_append_dropWhile pyIsSpace w.data] at hx
    rcases List.mem_append.mp hx with h1 | h2
    · exact List.mem_takeWhile_imp h1
    · exact hdrop x (List.mem_reverse.mpr h2)
  · intro hall x hx
    exact hall x ((List.dropWhile_sublist pyIsSpace).subset
      (List.mem_reverse.mp hx))

/-- C5: the loader returns the file's lines trimmed and upper-cased, with
blank (all-whitespace) lines discarded, preserving order and multiplicity. -/
theorem load_words_spec (text : String) :
    load_words text = (pySplitlines text).filterMap
      (fun l => if l.data.all pyIsSpace then none
                else some (pyUpper (pyStrip l))) := by
  rw [load_words]
  induction pySplitlines text with
  | nil => rfl
  | cons l ls ih =>
      rw [List.filter_cons, List.filterMap_cons]
      by_cases hb : l.data.all pyIsSpace
      · have hnil : (pyStrip l).data = [] := (pyStrip_data_eq_nil_iff l).mpr hb
        simp [hnil, hb, ih]
      · have hne : (pyStrip l).data ≠ [] :=
          fun hh => hb ((pyStrip_data_eq_nil_iff l).mp hh)
        simp [List.isEmpty_iff, hne, hb, ih]

theorem score_words_instr_go (oracle : String → ℚ) (ws : List String) :
    ∀ p : List WordScore × ℕ,
      ws.foldl (fun acc word =>
        (acc.1 ++ [⟨word, oracle (pyLower word)⟩], acc.2 + 1)) p
      = (p.1 ++ score_words oracle ws, p.2 + ws.length) := by
  induction ws with
  | nil => intro p; simp [score_words]
  | cons w ws ih =>
      intro p
      rw [List.foldl_cons, ih]
      simp [score_words, Nat.add_comm, Nat.add_assoc, Nat.add_left_comm]

/-- C6: the scorer maps the loader's output to a Scored Set of the same
length, one entry per word occurrence in the same order (the i-th entry is
the i-th word with its oracle score), and the oracle is invoked exactly once
per occurrence. -/
theorem score_words_spec (oracle : String → ℚ) (ws : List String) :
    (score_words oracle ws).length = ws.length ∧
    (∀ i : ℕ, (score_words oracle ws)[i]?
      = ws[i]?.map (fun w => WordScore.mk w (oracle (pyLower w)))) ∧
    score_words_instr oracle ws = (score_words oracle ws, ws.length) := by
  refine ⟨by simp [score_words], fun i => by simp [score_words], ?_⟩
  rw [score_words_instr, score_words_instr_go]
  simp

/-- C7: when the source path does not exist in the filesystem, the run
terminates with the fatal `SystemExit` error before scoring, and no output
file is produced (the error result carries no writes). -/
theorem missing_source_aborts (oracle : String → ℚ)
    (fs : String → Option String) (args : Args) (h : fs args.source = none) :
    runMain oracle fs args
      = Except.error ("Source file not found: " ++ args.source) := by
  rw [runMain, h]

/-- Witness for C7: a run over the empty filesystem aborts with the error. -/
theorem missing_source_aborts_witness :
    runMain (fun _ => 0) (fun _ => none)
      ⟨"missing.txt", none, "r.csv", none, 17 / 5, none⟩
      = Except.error ("Source file not found: " ++ "missing.txt") :=
  missing_source_aborts (fun _ => 0) (fun _ => none)
    ⟨"missing.txt", none, "r.csv", none, 17 / 5, none⟩ rfl

/-- C8: on source words APPLE/BERRY/ZYZZX with oracle scores 5.32/4.10/0.00,
answer threshold 3.4 and guesses threshold unset, the run writes the answer
list `"APPLE\nBERRY\n"`, the allowed-guesses list `"APPLE\nBERRY\nZYZZX\n"`,
and the reject CSV with the header row and the single data row
`ZYZZX,0.000`. -/
theorem scenario_a :
    runMain oracleA fsA argsA = Except.ok
      { answer := ("answers.txt", "APPLE\nBERRY\n")
        guesses := some ("guesses.txt", "APPLE\nBERRY\nZYZZX\n")
        rejectsFile :=
          some ("rejects.csv", "word,zipf_frequency\r\nZYZZX,0.000\r\n")
        scored := [⟨"APPLE", 133 / 25⟩, ⟨"BERRY", 41 / 10⟩, ⟨"ZYZZX", 0⟩]
        kept := [⟨"APPLE", 133 / 25⟩, ⟨"BERRY", 41 / 10⟩]
        dropped := [⟨"ZYZZX", 0⟩] } := by
  have hfs : fsA "words.txt" = some "APPLE\nBERRY\nZYZZX\n" := by decide
  have hload : load_words "APPLE\nBERRY\nZYZZX\n" = ["APPLE", "BERRY", "ZYZZX"] := by
    decide
  have h1 : pyLower "APPLE" = "apple" := by decide
  have h2 : pyLower "BERRY" = "berry" := by decide
  have h3 : pyLower "ZYZZX" = "zyzzx" := by decide
  have hscore : score_words oracleA ["APPLE", "BERRY", "ZYZZX"]
      = [⟨"APPLE", 133 / 25⟩, ⟨"BERRY", 41 / 10⟩, ⟨"ZYZZX", 0⟩] := by
    simp [score_words, oracleA, h1, h2, h3]
  have hkept : keptOf [⟨"APPLE", 133 / 25⟩, ⟨"BERRY", 41 / 10⟩, ⟨"ZYZZX", 0⟩]
      (17 / 5) = [⟨"APPLE", 133 / 25⟩, ⟨"BERRY", 41 / 10⟩] := by
    norm_num [keptOf, List.filter]
  have hdrop : droppedOf [⟨"APPLE", 133 / 25⟩, ⟨"BERRY", 41 / 10⟩, ⟨"ZYZZX", 0⟩]
      (17 / 5) = [⟨"ZYZZX", 0⟩] := by
    norm_num [droppedOf, List.filter]
  have hallow : allowedOf [⟨"APPLE", 133 / 25⟩, ⟨"BERRY", 41 / 10⟩, ⟨"ZYZZX", 0⟩]
      none = [⟨"APPLE", 133 / 25⟩, ⟨"BERRY", 41 / 10⟩, ⟨"ZYZZX", 0⟩] :=
    allowedOf_none _
  have hsortk : sortedWords [⟨"APPLE", 133 / 25⟩, ⟨"BERRY", 41 / 10⟩]
      = ["APPLE", "BERRY"] := by
    simp only [sortedWords, List.map_cons, List.map_nil]
    decide
  have hsorta : sortedWords [⟨"APPLE", 133 / 25⟩, ⟨"BERRY", 41 / 10⟩, ⟨"ZYZZX", 0⟩]
      = ["APPLE", "BERRY", "ZYZZX"] := by
    simp only [sortedWords, List.map_cons, List.map_nil]
    decide
  have hfmt : fmt3 0 = "0.000" := by
    norm_num [fmt3, roundHalfEven, natRepr, natReprAux, frac3]
    decide
  have hrej : rejectsOutput "rejects.csv" [⟨"ZYZZX", 0⟩]
      = some ("rejects.csv", "word,zipf_frequency\r\nZYZZX,0.000\r\n") := by
    rw [rejectsOutput]
    rw [if_neg (by decide)]
    rw [show sortedByFreq [⟨"ZYZZX", 0⟩] = [⟨"ZYZZX", 0⟩] from rfl]
    rw [show export_rejects_content [⟨"ZYZZX", (0 : ℚ)⟩]
        = csvRow ["word", "zipf_frequency"] ++ "\r\n"
          ++ (csvRow ["ZYZZX", fmt3 0] ++ "\r\n") from by
      simp [export_rejects_content, stringJoin_cons,
        show String.join ([] : List String) = "" from rfl]]
    rw [hfmt]
    rfl
  rw [runMain]
  rw [show argsA.source = "words.txt" from rfl, hfs]
  simp only [hload, hscore, hkept, hdrop]
  rw [show argsA.threshold = 17 / 5 from rfl] at *
  simp only [hkept, hdrop,
    show argsA.output = some "answers.txt" from rfl,
    show argsA.guesses_output = some "guesses.txt" from rfl,
    show argsA.guesses_threshold = (none : Option ℚ) from rfl,
    show argsA.rejects = "rejects.csv" from rfl,
    Option.getD, Option.map, hallow, hsortk, hsorta, hrej]
  rw [show save_words_content ["APPLE", "BERRY"] = "APPLE\nBERRY\n" from by decide]
  rw [show save_words_content ["APPLE", "BERRY", "ZYZZX"]
      = "APPLE\nBERRY\nZYZZX\n" from by decide]

/-- C9: the word-list writer always writes a file: on an empty `kept` (or
`allowed`) list, the file content is exactly one newline character, and no
word-list content is ever the empty string. -/
theorem empty_list_still_written :
    save_words_content [] = "\n" ∧
    (∀ ws : List String, save_words_content ws ≠ "") ∧
    (∀ (oracle : String → ℚ) (fs : String → Option String) (args : Args)
      (r : RunResult), runMain oracle fs args = Except.ok r →
      r.kept = [] → r.answer.2 = "\n") ∧
    (∀ (oracle : String → ℚ) (fs : String → Option String) (args : Args)
      (r : RunResult) (gp gc : String),
      runMain oracle fs args = Except.ok r → r.guesses = some (gp, gc) →
      allowedOf r.scored args.guesses_threshold = [] → gc = "\n") := by
  refine ⟨rfl, ?_, ?_, ?_⟩
  · intro ws h
    have h' := congrArg String.length h
    simp [save_words_content, String.length_append] at h'
    exact absurd h'.2 (by decide)
  · intro oracle fs args r hok hkept
    cases hfs : fs args.source with
    | none => rw [runMain, hfs] at hok; simp at hok
    | some text =>
        simp only [runMain, hfs, Except.ok.injEq] at hok
        subst hok
        simp only at hkept ⊢
        rw [hkept]
        rfl
  · intro oracle fs args r gp gc hok hg hallow
    cases hfs : fs args.source with
    | none => rw [runMain, hfs] at hok; simp at hok
    | some text =>
        simp only [runMain, hfs, Except.ok.injEq] at hok
        subst hok
        simp only at hallow hg
        cases hgo : args.guesses_output with
        | none => rw [hgo] at hg; simp [Option.map] at hg
        | some g =>
            rw [hgo] at hg
            simp only [Option.map, Option.some.injEq, Prod.mk.injEq] at hg
            rw [← hg.2, hallow]
            rfl

/-- Witness for C9: a concrete run whose `kept` list is empty still writes
the answer file with content exactly one newline. -/
theorem empty_list_still_written_witness :
    save_words_content [] = "\n" ∧
    ({ answer := ("s.txt", "\n"), guesses := none,
       rejectsFile := some ("r.csv", "word,zipf_frequency\r\nZY,0.000\r\n"),
       scored := [⟨"ZY", 0⟩], kept := [],
       dropped := [⟨"ZY", 0⟩] } : RunResult).answer.2 = "\n" := by
  have hrun : runMain (fun _ => 0) (fun _ => some "ZY")
      ⟨"s.txt", none, "r.csv", none, 17 / 5, none⟩ = Except.ok
      { answer := ("s.txt", "\n"), guesses := none,
        rejectsFile := some ("r.csv", "word,zipf_frequency\r\nZY,0.000\r\n"),
        scored := [⟨"ZY", 0⟩], kept := [], dropped := [⟨"ZY", 0⟩] } := by
    have hload : load_words "ZY" = ["ZY"] := by decide
    have hscore : score_words (fun _ => (0 : ℚ)) ["ZY"] = [⟨"ZY", 0⟩] := by
      simp [score_words]
    have hkept : keptOf [⟨"ZY", 0⟩] (17 / 5) = [] := by
      norm_num [keptOf, List.filter]
    have hdrop : droppedOf [⟨"ZY", 0⟩] (17 / 5) = [⟨"ZY", 0⟩] := by
      norm_num [droppedOf, List.filter]
    have hfmt : fmt3 0 = "0.000" := by
      norm_num [fmt3, roundHalfEven, natRepr, natReprAux, frac3]
      decide
    have hrej : rejectsOutput "r.csv" [⟨"ZY", 0⟩]
        = some ("r.csv", "word,zipf_frequency\r\nZY,0.000\r\n") := by
      rw [rejectsOutput, if_neg (by decide),
        show sortedByFreq [⟨"ZY", 0⟩] = [⟨"ZY", 0⟩] from rfl,
        show export_rejects_content [⟨"ZY", (0 : ℚ)⟩]
          = csvRow ["word", "zipf_frequency"] ++ "\r\n"
            ++ (csvRow ["ZY", fmt3 0] ++ "\r\n") from by
          simp [export_rejects_content, stringJoin_cons,
            show String.join ([] : List String) = "" from rfl],
        hfmt]
      rfl
    rw [runMain]
    simp only [hload, hscore, hkept, hdrop, hrej, Option.getD, Option.map]
    rfl
  exact ⟨empty_list_still_written.1,
    empty_list_still_written.2.2.1 _ _ _ _ hrun rfl⟩

theorem mem_allowedOf {scored : List WordScore} {gt : Option ℚ}
    {e : WordScore} :
    e ∈ allowedOf scored gt ↔
      e ∈ scored ∧ guessesThresholdOf gt ≤ (e.freq : WithBot ℚ) := by
  simp [allowedOf, List.mem_filter]

/-- C10: threshold filtering is antitone — raising the threshold only shrinks
the surviving set: for `t1 ≤ t2` every entry passing the `t2` filter passes
the `t1` filter (for the answer filter and for the guesses filter alike),
and whenever the guesses threshold is at most the answer threshold, every
word of the answer list appears in the allowed-guesses list. -/
theorem threshold_filter_antitone :
    (∀ (scored : List WordScore) (t1 t2 : ℚ), t1 ≤ t2 →
      ∀ e ∈ keptOf scored t2, e ∈ keptOf scored t1) ∧
    (∀ (scored : List WordScore) (g1 g2 : Option ℚ),
      guessesThresholdOf g1 ≤ guessesThresholdOf g2 →
      ∀ e ∈ allowedOf scored g2, e ∈ allowedOf scored g1) ∧
    (∀ (scored : List WordScore) (gt : Option ℚ) (t : ℚ),
      guessesThresholdOf gt ≤ (t : WithBot ℚ) →
      ∀ w ∈ sortedWords (keptOf scored t),
        w ∈ sortedWords (allowedOf scored gt)) := by
  refine ⟨?_, ?_, ?_⟩
  · intro scored t1 t2 h12 e he
    obtain ⟨hes, het⟩ := mem_keptOf.mp he
    exact mem_keptOf.mpr ⟨hes, le_trans h12 het⟩
  · intro scored g1 g2 h12 e he
    obtain ⟨hes, het⟩ := mem_allowedOf.mp he
    exact mem_allowedOf.mpr ⟨hes, le_trans h12 het⟩
  · intro scored gt t hgt w hw
    rw [sortedWords, List.mem_insertionSort, List.mem_map] at hw
    obtain ⟨e, he, rfl⟩ := hw
    obtain ⟨hes, het⟩ := mem_keptOf.mp he
    rw [sortedWords, List.mem_insertionSort, List.mem_map]
    exact ⟨e, mem_allowedOf.mpr
      ⟨hes, le_trans hgt (WithBot.coe_le_coe.mpr het)⟩, rfl⟩

/-- Witness for C10: with an unset guesses threshold and answer threshold 1,
the answer word `ZY` also appears in the allowed-guesses list. -/
theorem threshold_filter_antitone_witness :
    "ZY" ∈ sortedWords (allowedOf [WordScore.mk "ZY" 5] none) := by
  have hk : keptOf [WordScore.mk "ZY" 5] 1 = [WordScore.mk "ZY" 5] := by
    norm_num [keptOf, List.filter]
  have hmem : "ZY" ∈ sortedWords (keptOf [WordScore.mk "ZY" 5] 1) := by
    rw [hk]
    decide
  exact threshold_filter_antitone.2.2 [WordScore.mk "ZY" 5] none 1 bot_le
    "ZY" hmem

/-! ### Sanity checks on concrete inputs -/

example : pySplitlines "APPLE\nBERRY\nZYZZX\n" = ["APPLE", "BERRY", "ZYZZX"] := by
  decide

example : load_words "  apple \n\nberry\n" = ["APPLE", "BERRY"] := by decide

example : fmt3 0 = "0.000" := by
  norm_num [fmt3, roundHalfEven, natRepr, natReprAux, frac3]
  decide

example : List.insertionSort (fun a b => pyStrLe a b = true) ["ZY", "AP", "BE"]
    = ["AP", "BE", "ZY"] := by decide

example : save_words_content ["AP", "BE"] = "AP\nBE\n" := by decide

example : csvRow ["ZYZZX", "0.000"] = "ZYZZX,0.000" := by decide

end Curate
